import Mathlib

/-!
Verification of the RAG (retrieval-augmented generation) subsystem of the
farmer-assistant backend: a shallow embedding of
`backend/services/vector_store_service.py`, `backend/services/llm_service.py`
and `backend/routes/chat.py`, together with theorems about the embedded
operations.

Modelling conventions:
* FAISS `IndexFlatL2` is modelled as a list of vectors (`List ℚ` each); its
  `search` returns slots paired with squared-L2 distances, sorted stably by
  ascending distance (ties broken by insertion order).
* The embedding model (`SentenceTransformer.encode`) is an external
  collaborator and is a parameter `embed : String → Vec` of every operation
  that embeds text.
* `datetime.utcnow().isoformat()` is an external input and is passed as the
  explicit `now : String` argument.
* Durable storage is a `Disk`: two separately-written artifacts (the index
  file and the metadata pickle), each missing, unreadable, or holding
  content.  `save_index` performs the source's two sequential writes; each
  write can succeed, raise leaving the old file, or raise leaving an
  unreadable file, so a failure between the two writes leaves a readable but
  mismatched pair.  The `try/except` blocks of `save_index`/`load_index` are
  embedded as total functions.
* Python floats are modelled as rationals.
-/

namespace Rag

/-- A stored embedding vector (fixed dimension in the source, e.g. 384). -/
abbrev Vec := List ℚ

/-- Squared Euclidean distance between two vectors, the distance value that
`faiss.IndexFlatL2.search` reports. -/
def sqdist (u v : Vec) : ℚ :=
  (List.zipWith (fun a b => (a - b) ^ 2) u v).sum

/-- One metadata record, as built in `add_conversation`
(vector_store_service.py lines 96-103). -/
structure Metadata where
  user_email : String
  question : String
  response : String
  conversation_id : Option Nat
  timestamp : String
  index_id : Nat
deriving DecidableEq, Inhabited

/-- A search hit: the copied metadata record together with the
`similarity_score` entry added to the copy (line 144-145). -/
structure SearchResult where
  meta : Metadata
  similarity_score : ℚ
deriving DecidableEq

/-- In-memory state of `VectorStoreService`: the FAISS index (`self.index`)
and the parallel metadata list (`self.metadata`). -/
structure VectorStore where
  index : List Vec
  metadata : List Metadata
deriving DecidableEq

/-- The store as freshly constructed: empty `IndexFlatL2`, empty metadata. -/
def emptyStore : VectorStore := ⟨[], []⟩

/-- `faiss.IndexFlatL2.search`: each stored vector paired with its slot and
its squared-L2 distance to the query, sorted stably by ascending distance,
truncated to the requested number of neighbours. -/
def indexSearch (index : List Vec) (qv : Vec) (n : Nat) : List (Nat × ℚ) :=
  (List.insertionSort (fun p q => p.2 ≤ q.2)
    (index.enum.map (fun p => (p.1, sqdist qv p.2)))).take n

/-- Distance-to-similarity conversion used at vector_store_service.py
line 145. -/
def similarity_score (d : ℚ) : ℚ := 1 / (1 + d)

/-- The combined text embedded for one conversation (line 87). -/
def combined_text (question response : String) : String :=
  "Question: " ++ question ++ "\nAnswer: " ++ response

/-- `add_conversation` (lines 67-109): embeds the combined text, appends the
vector to the index and a matching metadata record to the metadata list, and
returns `len(self.metadata) - 1`.  The `save_index` call is modelled in
`add_conversation_persist` below. -/
def add_conversation (embed : String → Vec) (s : VectorStore)
    (user_email question response : String) (conversation_id : Option Nat)
    (now : String) : VectorStore × Nat :=
  let embedding := embed (combined_text question response)
  let index' := s.index ++ [embedding]
  let meta : Metadata :=
    { user_email := user_email, question := question, response := response,
      conversation_id := conversation_id, timestamp := now,
      index_id := s.metadata.length }
  let metadata' := s.metadata ++ [meta]
  (⟨index', metadata'⟩, metadata'.length - 1)

/-- The owner filter of line 148:
`user_email is None or meta["user_email"] == user_email`. -/
def ownerMatches (owner : Option String) (m : Metadata) : Bool :=
  match owner with
  | none => true
  | some a => m.user_email == a

/-- The result loop of `search_similar_conversations` (lines 140-153): for
each candidate `(idx, distance)`, if `idx` is a valid metadata slot, copy the
record, attach the similarity score, keep it when the owner filter passes,
and break once `k` results are collected. -/
def filterResults (metadata : List Metadata) (owner : Option String) (k : Nat) :
    List (Nat × ℚ) → List SearchResult → List SearchResult
  | [], acc => acc
  | (idx, d) :: rest, acc =>
    if idx < metadata.length then
      let m := metadata.getD idx default
      if ownerMatches owner m then
        let acc' := acc ++ [⟨m, similarity_score d⟩]
        if k ≤ acc'.length then acc'
        else filterResults metadata owner k rest acc'
      else filterResults metadata owner k rest acc
    else filterResults metadata owner k rest acc

/-- The candidate list `search_similar_conversations` requests from the
index: `min(k * 2, self.index.ntotal)` nearest neighbours (lines 135-138). -/
def search_candidates (embed : String → Vec) (s : VectorStore) (query : String)
    (k : Nat) : List (Nat × ℚ) :=
  indexSearch s.index (embed query) (min (k * 2) s.index.length)

/-- `search_similar_conversations` (lines 111-153). -/
def search_similar_conversations (embed : String → Vec) (s : VectorStore)
    (query : String) (user_email : Option String) (k : Nat) :
    List SearchResult :=
  if s.index.length = 0 then []
  else filterResults s.metadata user_email k (search_candidates embed s query k) []

/-- `delete_user_conversations` (lines 226-259): keep the records of every
other owner in order, rebuild the index from their vectors
(`self.index.reconstruct(old_idx)`), and return the number removed.  The
metadata records are reused unchanged (line 253) — in particular their
`index_id` field is not rewritten. -/
def delete_user_conversations (s : VectorStore) (user_email : String) :
    VectorStore × Nat :=
  let indices_to_keep := s.metadata.enum.filter
    (fun p => p.2.user_email != user_email)
  let deleted_count := s.metadata.length - indices_to_keep.length
  if 0 < deleted_count then
    let new_index := indices_to_keep.map (fun p => s.index.getD p.1 [])
    let new_metadata := indices_to_keep.map (fun p => p.2)
    (⟨new_index, new_metadata⟩, deleted_count)
  else (s, deleted_count)

/-- The statistics dictionary of `get_stats` (lines 295-308);
`conversations_per_user` is an insertion-ordered association list, matching
a Python dict. -/
structure Stats where
  total_conversations : Nat
  total_users : Nat
  conversations_per_user : List (String × Nat)
  embedding_model : String
  vector_dimension : Nat
deriving DecidableEq

/-- One step of the `user_counts` accumulation of lines 297-300:
`user_counts[email] = user_counts.get(email, 0) + 1`. -/
def bumpCount (email : String) : List (String × Nat) → List (String × Nat)
  | [] => [(email, 1)]
  | (e, c) :: rest =>
    if e == email then (e, c + 1) :: rest else (e, c) :: bumpCount email rest

/-- The per-user counting loop of `get_stats`. -/
def user_counts (metadata : List Metadata) : List (String × Nat) :=
  metadata.foldl (fun acc m => bumpCount m.user_email acc) []

/-- `get_stats` (lines 295-308).  `embedding_model_name` and `vector_dim` are
the constructor configuration fields `self.embedding_model_name` and
`self.vector_dim`. -/
def get_stats (embedding_model_name : String) (vector_dim : Nat)
    (s : VectorStore) : Stats :=
  { total_conversations := s.index.length,
    total_users := (user_counts s.metadata).length,
    conversations_per_user := user_counts s.metadata,
    embedding_model := embedding_model_name,
    vector_dimension := vector_dim }

/-- One on-disk artifact (`faiss_index.bin` or `metadata.pkl`): absent,
present but unreadable/malformed, or readable content. -/
inductive Artifact (α : Type) where
  | missing
  | corrupt
  | good (a : α)
deriving DecidableEq

/-- The durable snapshot pair: the geometry file and the metadata pickle,
written by two separate calls and therefore independently fallible. -/
structure Disk where
  geom : Artifact (List Vec)
  meta : Artifact (List Metadata)
deriving DecidableEq

/-- Disk state of a fresh store directory: neither file exists. -/
def emptyDisk : Disk := ⟨.missing, .missing⟩

/-- Outcome of one file-write attempt: it succeeds, or it raises before
touching the file (the old file survives), or it raises mid-write (the file
is left unreadable). -/
inductive WriteOutcome where
  | ok
  | failKeep
  | failTorn
deriving DecidableEq

/-- Effect of one write attempt on one artifact. -/
def writeFile {α : Type} (w : WriteOutcome) (old : Artifact α) (a : α) :
    Artifact α :=
  match w with
  | .ok => .good a
  | .failKeep => old
  | .failTorn => .corrupt

/-- `save_index` (lines 261-273): `faiss.write_index` runs first; if it
raises, the `except` handler (which only prints) fires and `pickle.dump`
never runs; if it succeeds, `pickle.dump` runs with its own outcome.  The
function always returns normally — no failure is surfaced — and a failure
between the two writes (`w1 = ok`, `w2 = failKeep`) leaves a readable but
mismatched pair on disk. -/
def save_index (w1 w2 : WriteOutcome) (d : Disk) (s : VectorStore) : Disk :=
  match w1 with
  | .ok => ⟨.good s.index, writeFile w2 d.meta s.metadata⟩
  | .failKeep => d
  | .failTorn => ⟨.corrupt, d.meta⟩

/-- `index_path.exists() and metadata_path.exists()` (line 278). -/
def artifactExists {α : Type} : Artifact α → Bool
  | .missing => false
  | _ => true

/-- `load_index` (lines 275-293).  When both files exist and are readable the
snapshot pair replaces the in-memory state (even if the two files disagree in
length); when either file is absent the current (freshly constructed, empty)
state is kept; an exception from either read resets both the index and the
metadata to empty.  The `try/except` handler makes the function total: it
never raises. -/
def load_index (d : Disk) (s : VectorStore) : VectorStore :=
  if artifactExists d.geom && artifactExists d.meta then
    match d.geom, d.meta with
    | .good index, .good metadata => ⟨index, metadata⟩
    | _, _ => emptyStore
  else s

/-- `add_conversation` including its `save_index` call (line 107): mutate the
in-memory store, then attempt to persist, then return the position. -/
def add_conversation_persist (embed : String → Vec) (w1 w2 : WriteOutcome)
    (disk : Disk) (s : VectorStore) (user_email question response : String)
    (conversation_id : Option Nat) (now : String) :
    VectorStore × Disk × Nat :=
  let r := add_conversation embed s user_email question response
    conversation_id now
  (r.1, save_index w1 w2 disk r.1, r.2)

/-- `delete_user_conversations` including its `save_index` call (line 257),
made only when at least one record was removed. -/
def delete_user_conversations_persist (w1 w2 : WriteOutcome) (disk : Disk)
    (s : VectorStore) (user_email : String) : VectorStore × Disk × Nat :=
  let r := delete_user_conversations s user_email
  if 0 < r.2 then (r.1, save_index w1 w2 disk r.1, r.2)
  else (r.1, disk, r.2)

/-- `get_relevant_context` (lines 155-189).  `fmt2` models Python's
`f"{x:.2f}"` float formatting, an external numeric-formatting concern. -/
def get_relevant_context (embed : String → Vec) (fmt2 : ℚ → String)
    (s : VectorStore) (query user_email : String) (max_results : Nat) :
    String :=
  let similar_convos :=
    search_similar_conversations embed s query (some user_email) max_results
  if similar_convos.isEmpty then "No relevant past conversations found."
  else
    let context_parts := "Relevant past conversations:" ::
      similar_convos.enum.map (fun p =>
        "\n" ++ toString (p.1 + 1) ++ ". Q: " ++ p.2.meta.question.take 100 ++
        "..." ++ "\n   A: " ++ p.2.meta.response.take 150 ++ "..." ++
        "\n   (Similarity: " ++ fmt2 p.2.similarity_score ++ ")")
    String.intercalate "\n" context_parts

/-- `get_user_history_summary` (lines 191-224): filter the user's records,
sort by timestamp descending (Python's stable `list.sort` with
`reverse=True`), take the most recent `limit`, and render. -/
def get_user_history_summary (s : VectorStore) (user_email : String)
    (limit : Nat) : String :=
  let user_convos := s.metadata.filter (fun m => m.user_email == user_email)
  let sorted_convos :=
    List.insertionSort (fun a b => b.timestamp ≤ a.timestamp) user_convos
  let recent_convos := sorted_convos.take limit
  if recent_convos.isEmpty then "No previous conversations found."
  else
    String.intercalate "\n"
      (("Your recent conversation history (" ++
          toString recent_convos.length ++ " conversations):") ::
        recent_convos.map (fun c =>
          "- Q: " ++ c.question.take 80 ++ "... (at " ++
          c.timestamp.take 10 ++ ")"))

/-! ### Chat layer (`llm_service.py`, `routes/chat.py`)

The vector store, the Ollama model and the SQL database are collaborators of
the orchestrator; for the error-flow theorems they are parameters:
* `retrieve query user_email` models `vector_store.get_relevant_context`,
  which may raise (embedding or index query failure) — hence `Except`;
* `llm prompt` models `chain.arun`, which may raise;
* `add_conv user_email question response` models
  `vector_store.add_conversation`, which may raise while embedding.
Raised Python exceptions are `Except.error` carrying `str(e)`. -/

/-- The system prompt of `LLMService.__init__` (llm_service.py lines 20-24). -/
def system_prompt : String :=
  "You are a helpful and knowledgeable Farmer Query Assistant. \n" ++
  "Your goal is to provide concise, practical advice for farmers. \n" ++
  "You are an expert in sustainable farming; proactively offer advice on how to reduce waste, \n" ++
  "save money by suggesting efficient alternatives, and improve soil health.\n" ++
  "Always be friendly, clear, and supportive in your responses."

/-- The prompt template of `LLMService.__init__` (lines 26-35). -/
def renderPrompt (sys ctx question : String) : String :=
  "System: " ++ sys ++ "\n\nContext: " ++ ctx ++ "\n\nQuestion: " ++
  question ++ "\n\nAnswer: "

/-- `LLMService.generate_response` (llm_service.py lines 37-80).  The body is
a `try` block; the handler re-raises `Exception(f"Error generating response:
{e}")`, so any retrieval or model failure propagates, wrapped. -/
def generate_response (retrieve : String → String → Except String String)
    (llm : String → Except String String) (question : String)
    (context : Option String) (user_email : Option String) (use_rag : Bool) :
    Except String String :=
  let body : Except String String := do
    let rag_context ←
      match user_email with
      | some u => if use_rag && u != "" then retrieve question u else pure ""
      | none => pure ""
    let context_str :=
      match context with
      | some c => if c = "" then "No additional context provided." else c
      | none => "No additional context provided."
    let context_str :=
      if rag_context = "" then context_str
      else context_str ++ "\n\n" ++ rag_context
    let response ← llm (renderPrompt system_prompt context_str question)
    pure response.trim
  match body with
  | .ok r => .ok r
  | .error e => .error ("Error generating response: " ++ e)

/-- Result dictionary of `generate_response_with_history` (lines 115-119). -/
structure HistoryResult where
  response : String
  vector_id : Nat
  used_rag : Bool
deriving DecidableEq

/-- `LLMService.generate_response_with_history` (lines 82-121): generate with
RAG, store the new exchange, and wrap any failure in
`Exception(f"Error generating response with history: {e}")`. -/
def generate_response_with_history
    (retrieve : String → String → Except String String)
    (llm : String → Except String String)
    (add_conv : String → String → String → Except String Nat)
    (question user_email : String) (context : Option String) :
    Except String HistoryResult :=
  let body : Except String HistoryResult := do
    let response ←
      generate_response retrieve llm question context (some user_email) true
    let vector_id ← add_conv user_email question response
    pure ⟨response, vector_id, true⟩
  match body with
  | .ok r => .ok r
  | .error e => .error ("Error generating response with history: " ++ e)

/-- The response model of `POST /api/chat/message` (chat.py lines 49-53). -/
structure ChatResponse where
  response : String
  timestamp : String
  used_rag : Bool
deriving DecidableEq

/-- `send_message` (chat.py lines 15-59): one chat turn.  Any exception from
the orchestrator is converted to `HTTPException(500, f"Error processing chat
message: {e}")`, modelled as `Except.error (500, detail)`.  The SQL
`Conversation` insert is out of scope and modelled as succeeding. -/
def send_message (retrieve : String → String → Except String String)
    (llm : String → Except String String)
    (add_conv : String → String → String → Except String Nat)
    (message : String) (context : Option String) (user_email : String)
    (now : String) : Except (Nat × String) ChatResponse :=
  match generate_response_with_history retrieve llm add_conv message
      user_email context with
  | .ok result => .ok ⟨result.response, now, result.used_rag⟩
  | .error e => .error (500, "Error processing chat message: " ++ e)

/-! ### Operation traces

A small machine stepping the service state (in-memory store plus disk)
through the source operations, used for the lockstep invariant. -/

/-- Arguments of one `add_conversation` call. -/
structure AddArgs where
  user_email : String
  question : String
  response : String
  conversation_id : Option Nat
  now : String

/-- One observable operation on the service.  `diskCorrupts` is the external
event that makes the snapshot pair unreadable.  The four read-only methods
(`search_similar_conversations`, `get_relevant_context`,
`get_user_history_summary`, `get_stats`) contain no assignment to
`self.index` or `self.metadata`, so their steps carry the state through
unchanged. -/
inductive Op where
  | add (a : AddArgs) (w1 w2 : WriteOutcome)
  | search (query : String) (owner : Option String) (k : Nat)
  | context (query user_email : String) (max_results : Nat)
  | summary (user_email : String) (limit : Nat)
  | stats
  | del (user_email : String) (w1 w2 : WriteOutcome)
  | load
  | diskCorrupts

/-- The full service state: in-memory store plus durable snapshot pair. -/
structure SysState where
  store : VectorStore
  disk : Disk

/-- State at process start, before `load_index` runs: fresh empty store, no
snapshot on disk. -/
def initSys : SysState := ⟨emptyStore, emptyDisk⟩

/-- State transition of one operation. -/
def stepOp (embed : String → Vec) (s : SysState) : Op → SysState
  | .add a w1 w2 =>
    let r := add_conversation_persist embed w1 w2 s.disk s.store
      a.user_email a.question a.response a.conversation_id a.now
    ⟨r.1, r.2.1⟩
  | .search _ _ _ => s
  | .context _ _ _ => s
  | .summary _ _ => s
  | .stats => s
  | .del u w1 w2 =>
    let r := delete_user_conversations_persist w1 w2 s.disk s.store u
    ⟨r.1, r.2.1⟩
  | .load => ⟨load_index s.disk s.store, s.disk⟩
  | .diskCorrupts => ⟨s.store, ⟨.corrupt, .corrupt⟩⟩

/-- Run a sequence of operations. -/
def runTrace (embed : String → Vec) (ops : List Op) (s : SysState) : SysState :=
  ops.foldl (stepOp embed) s

/-- Run a sequence of `add_conversation` calls, collecting the returned
positions. -/
def runAdds (embed : String → Vec) (argsList : List AddArgs) (s : VectorStore) :
    VectorStore × List Nat :=
  match argsList with
  | [] => (s, [])
  | a :: rest =>
    let r := add_conversation embed s a.user_email a.question a.response
      a.conversation_id a.now
    let r' := runAdds embed rest r.1
    (r'.1, r.2 :: r'.2)

/-! ### Object-identity model of `search_similar_conversations`

Python metadata records are mutable dict objects.  To state that search
results are *copies* — that mutating a returned record never alters the
store — records live in an explicit heap and the store's metadata list holds
references.  `self.metadata[idx].copy()` allocates a fresh cell. -/

/-- One heap cell: a metadata dict, possibly carrying the extra
`similarity_score` key that search adds to its copies. -/
structure Cell where
  fields : Metadata
  similarity_score : Option ℚ
deriving DecidableEq, Inhabited

/-- Service state with explicit object identity: the heap of all allocated
record objects, the index geometry, and the store's metadata list as
references into the heap. -/
structure HeapStore where
  heap : List Cell
  index : List Vec
  metaRefs : List Nat
deriving DecidableEq

/-- Every stored metadata reference points at an allocated cell. -/
def wfHeap (h : HeapStore) : Prop := ∀ r ∈ h.metaRefs, r < h.heap.length

/-- The store's observable metadata content: the record object behind each
stored reference. -/
def heapView (h : HeapStore) : List (Option Cell) :=
  h.metaRefs.map (fun r => h.heap.get? r)

/-- The result loop of `search_similar_conversations`, heap version: each
accepted candidate allocates `self.metadata[idx].copy()` with the score
added, and the result list holds references to the fresh copies. -/
def searchHeapLoop (metaRefs : List Nat) (owner : Option String) (k : Nat) :
    List (Nat × ℚ) → List Cell → List Nat → List Cell × List Nat
  | [], heap, acc => (heap, acc)
  | (idx, d) :: rest, heap, acc =>
    if idx < metaRefs.length then
      let srcRef := metaRefs.getD idx 0
      let copy : Cell :=
        { fields := (heap.getD srcRef default).fields,
          similarity_score := some (similarity_score d) }
      let heap' := heap ++ [copy]
      let newRef := heap.length
      if ownerMatches owner copy.fields then
        let acc' := acc ++ [newRef]
        if k ≤ acc'.length then (heap', acc')
        else searchHeapLoop metaRefs owner k rest heap' acc'
      else searchHeapLoop metaRefs owner k rest heap' acc
    else searchHeapLoop metaRefs owner k rest heap acc

/-- `search_similar_conversations` in the object-identity model: returns the
state (heap may have grown by the copies) and references to the result
records. -/
def search_heap (embed : String → Vec) (h : HeapStore) (query : String)
    (owner : Option String) (k : Nat) : HeapStore × List Nat :=
  if h.index.length = 0 then (h, [])
  else
    let cands := indexSearch h.index (embed query) (min (k * 2) h.index.length)
    let r := searchHeapLoop h.metaRefs owner k cands h.heap []
    (⟨r.1, h.index, h.metaRefs⟩, r.2)

/-- Mutation of one record object in place (what a caller could do to a
returned result dict). -/
def writeHeap (h : HeapStore) (r : Nat) (c : Cell) : HeapStore :=
  ⟨h.heap.set r c, h.index, h.metaRefs⟩

/-! ### Invariants and concrete instances -/

/-- The geometry/payload lockstep invariant: the index holds exactly as many
vectors as the metadata list has records. -/
def lockstep (s : VectorStore) : Prop := s.index.length = s.metadata.length

/-- When both artifacts are readable, they hold matching numbers of vectors
and records. -/
def diskOK (d : Disk) : Prop :=
  ∀ (i : List Vec) (m : List Metadata),
    d.geom = .good i → d.meta = .good m → i.length = m.length

/-- A persist attempt that does not fail between its two writes: it never
keeps the old metadata file after the index file was rewritten.  (Any other
outcome either leaves the previous pair, rewrites both, or leaves an
unreadable file that a later load resets.) -/
def saveNotTorn : Op → Prop
  | .add _ w1 w2 => ¬(w1 = .ok ∧ w2 = .failKeep)
  | .del _ w1 w2 => ¬(w1 = .ok ∧ w2 = .failKeep)
  | _ => True

/-- A degenerate embedding collaborator for concrete runs: every text maps to
the one-dimensional zero vector. -/
def embed0 : String → Vec := fun _ => [0]

/-- Concrete store with one conversation of owner "a". -/
def storeA : VectorStore :=
  (add_conversation embed0 emptyStore "a" "q0" "r0" none "t0").1

/-- Concrete store with one conversation of "a" followed by one of "b". -/
def storeAB : VectorStore :=
  (add_conversation embed0 storeA "b" "q1" "r1" none "t1").1

/-- The metadata record created first in `storeA`/`storeAB`. -/
def metaA : Metadata := ⟨"a", "q0", "r0", none, "t0", 0⟩

/-- The metadata record created second in `storeAB`. -/
def metaB : Metadata := ⟨"b", "q1", "r1", none, "t1", 1⟩

/-- Concrete heap store with one record of owner "a". -/
def heapStoreA : HeapStore := ⟨[⟨metaA, none⟩], [[0]], [0]⟩

end Rag

/-! ## Theorems -/

namespace Rag

/-- C8: the similarity score `1/(1+d)` attached to every search result lies
in the interval `(0, 1]` for every distance `d ≥ 0`, and the score is
strictly decreasing in distance: for `d₁ < d₂`, `1/(1+d₁) > 1/(1+d₂)`. -/
theorem similarity_score_bounds :
    (∀ d : ℚ, 0 ≤ d → 0 < similarity_score d ∧ similarity_score d ≤ 1) ∧
    (∀ d₁ d₂ : ℚ, 0 ≤ d₁ → d₁ < d₂ →
      similarity_score d₂ < similarity_score d₁) := by
  constructor
  · intro d hd
    have h1 : (0:ℚ) < 1 + d := by linarith
    refine ⟨div_pos one_pos h1, ?_⟩
    rw [similarity_score, div_le_one h1]
    linarith
  · intro d₁ d₂ h1 h2
    have h3 : (0:ℚ) < 1 + d₁ := by linarith
    exact one_div_lt_one_div_of_lt h3 (by linarith)

/-- Witness for C8 at the concrete distances 3 and 1 < 2. -/
theorem similarity_score_bounds_witness :
    (0 < similarity_score 3 ∧ similarity_score 3 ≤ 1) ∧
    similarity_score 2 < similarity_score 1 :=
  ⟨similarity_score_bounds.1 3 (by norm_num),
   similarity_score_bounds.2 1 2 (by norm_num) (by norm_num)⟩

/-- C9: `load_index` is an embedded total function (it never raises): with
no snapshot pair on disk — either file missing — it keeps the
freshly-constructed empty store, and when both files exist but either is
unreadable or malformed it resets the geometry and the metadata together,
yielding the empty store (index count 0, empty metadata list) from any prior
state. -/
theorem load_index_recovery :
    (∀ g : Artifact (List Vec),
      load_index ⟨g, .missing⟩ emptyStore = emptyStore) ∧
    (∀ m : Artifact (List Metadata),
      load_index ⟨.missing, m⟩ emptyStore = emptyStore) ∧
    (∀ (s : VectorStore) (m : Artifact (List Metadata)), m ≠ .missing →
      load_index ⟨.corrupt, m⟩ s = emptyStore) ∧
    (∀ (s : VectorStore) (g : Artifact (List Vec)), g ≠ .missing →
      load_index ⟨g, .corrupt⟩ s = emptyStore) := by
  refine ⟨?_, ?_, ?_, ?_⟩
  · intro g; cases g <;> rfl
  · intro m; cases m <;> rfl
  · intro s m hm
    cases m with
    | missing => exact absurd rfl hm
    | corrupt => rfl
    | good mm => rfl
  · intro s g hg
    cases g with
    | missing => exact absurd rfl hg
    | corrupt => rfl
    | good i => rfl

/-- Witness for C9: a concrete corrupt pair resets a non-empty store. -/
theorem load_index_recovery_witness :
    load_index ⟨.corrupt, .corrupt⟩ storeA = emptyStore ∧
    load_index ⟨.good [[0]], .corrupt⟩ storeA = emptyStore :=
  ⟨load_index_recovery.2.2.1 storeA .corrupt (by simp),
   load_index_recovery.2.2.2 storeA (.good [[0]]) (by simp)⟩

/-- C5 counterexample: with a metadata write that fails after the index
write succeeded, `add_conversation` still returns its normal result —
position 0 and the same mutated store as with a fully successful write —
while the metadata file was never written.  The persistence failure is not
surfaced to the caller. -/
theorem add_persist_failure_not_surfaced_cex :
    (add_conversation_persist embed0 .ok .failKeep emptyDisk emptyStore "a"
        "q0" "r0" none "t0").2.2 = 0 ∧
    (add_conversation_persist embed0 .ok .failKeep emptyDisk emptyStore "a"
        "q0" "r0" none "t0").1 =
      (add_conversation_persist embed0 .ok .ok emptyDisk emptyStore "a" "q0"
        "r0" none "t0").1 ∧
    (add_conversation_persist embed0 .ok .failKeep emptyDisk emptyStore "a"
        "q0" "r0" none "t0").2.1.meta = Artifact.missing :=
  ⟨rfl, rfl, rfl⟩

/-- C5 amended: `save_index` catches any write failure internally and only
logs it, so `add_conversation` and `delete_user_conversations` return their
normal results — the same in-memory state and the same return value as on a
fully successful write — whichever of the two writes throws; only the
on-disk artifacts are affected (they may be left old, partial, or
mismatched). -/
theorem persist_failure_swallowed (embed : String → Vec)
    (w1 w2 : WriteOutcome) (disk : Disk) (s : VectorStore) (u q r : String)
    (cid : Option Nat) (now : String) :
    ((add_conversation_persist embed w1 w2 disk s u q r cid now).1 =
        (add_conversation_persist embed .ok .ok disk s u q r cid now).1 ∧
      (add_conversation_persist embed w1 w2 disk s u q r cid now).2.2 =
        (add_conversation_persist embed .ok .ok disk s u q r cid now).2.2) ∧
    ((delete_user_conversations_persist w1 w2 disk s u).1 =
        (delete_user_conversations_persist .ok .ok disk s u).1 ∧
      (delete_user_conversations_persist w1 w2 disk s u).2.2 =
        (delete_user_conversations_persist .ok .ok disk s u).2.2) := by
  refine ⟨⟨rfl, rfl⟩, ?_⟩
  by_cases h0 : 0 < (delete_user_conversations s u).2 <;>
    simp [delete_user_conversations_persist, h0]

/-- C6 counterexample: a chat turn in which retrieval throws ("boom") while
the language model would answer normally; `send_message` returns an HTTP 500
error instead of an answer, so the retrieval failure blocks generation. -/
theorem send_message_retrieval_failure_cex :
    send_message (fun _ _ => .error "boom") (fun _ => .ok "the answer")
        (fun _ _ _ => .ok 0) "hello" none "user@example.com" "t0" =
      .error (500, "Error processing chat message: " ++
        ("Error generating response with history: " ++
          ("Error generating response: " ++ "boom"))) := rfl

/-- A raised exception short-circuits the rest of a `try` body. -/
theorem error_bind {α β : Type} (e : String) (f : α → Except String β) :
    (Except.error e : Except String α) >>= f = Except.error e := rfl

/-- C6 amended: when retrieval throws during a chat turn, the failure
propagates: `generate_response` re-raises it wrapped,
`generate_response_with_history` wraps it again, and `send_message` turns it
into an HTTP 500 error.  The chat turn fails; the orchestrator does not
degrade to answering without historical context. -/
theorem send_message_retrieval_failure_propagates (e : String)
    (llm : String → Except String String)
    (add_conv : String → String → String → Except String Nat)
    (message : String) (context : Option String) (user_email : String)
    (now : String) (h : user_email ≠ "") :
    send_message (fun _ _ => .error e) llm add_conv message context
        user_email now =
      .error (500, "Error processing chat message: " ++
        ("Error generating response with history: " ++
          ("Error generating response: " ++ e))) := by
  have hb : (user_email != "") = true := bne_iff_ne.mpr h
  simp [send_message, generate_response_with_history, generate_response, hb,
    error_bind]

/-- Witness for the C6 amended theorem at concrete collaborators. -/
theorem send_message_retrieval_failure_propagates_witness :
    send_message (fun _ _ => .error "down") (fun _ => .ok "ans")
        (fun _ _ _ => .ok 0) "hi" none "u" "t" =
      .error (500, "Error processing chat message: " ++
        ("Error generating response with history: " ++
          ("Error generating response: " ++ "down"))) :=
  send_message_retrieval_failure_propagates "down" _ _ "hi" none "u" "t"
    (by decide)

/-- Results the owner-filtered loop produces all carry the owner's email,
provided the accumulator already does. -/
theorem filterResults_owner (md : List Metadata) (A : String) (k : Nat) :
    ∀ (cands : List (Nat × ℚ)) (acc : List SearchResult),
      (∀ x ∈ acc, x.meta.user_email = A) →
      ∀ r ∈ filterResults md (some A) k cands acc, r.meta.user_email = A := by
  intro cands
  induction cands with
  | nil => intro acc hacc r hr; exact hacc r hr
  | cons c rest ih =>
    obtain ⟨idx, d⟩ := c
    intro acc hacc r hr
    simp only [filterResults] at hr
    by_cases h1 : idx < md.length
    · rw [if_pos h1] at hr
      by_cases h2 : ownerMatches (some A) (md.getD idx default) = true
      · rw [if_pos h2] at hr
        have hmem : ∀ x ∈
            acc ++ [(⟨md.getD idx default, similarity_score d⟩ : SearchResult)],
            x.meta.user_email = A := by
          intro x hx
          rcases List.mem_append.mp hx with hx | hx
          · exact hacc x hx
          · have hx' : x =
                (⟨md.getD idx default, similarity_score d⟩ : SearchResult) := by
              simpa using hx
            subst hx'
            simpa [ownerMatches] using h2
        by_cases h3 : k ≤
            (acc ++ [(⟨md.getD idx default, similarity_score d⟩ : SearchResult)]).length
        · rw [if_pos h3] at hr
          exact hmem r hr
        · rw [if_neg h3] at hr
          exact ih _ hmem r hr
      · rw [if_neg h2] at hr
        exact ih acc hacc r hr
    · rw [if_neg h1] at hr
      exact ih acc hacc r hr

/-- C1: every record returned by `search_similar_conversations` with an
owner filter `user_email = A` has owner `A`; no record of a different owner
ever appears in the result list. -/
theorem search_owner_isolation (embed : String → Vec) (s : VectorStore)
    (q A : String) (k : Nat) (r : SearchResult)
    (hr : r ∈ search_similar_conversations embed s q (some A) k) :
    r.meta.user_email = A := by
  rw [search_similar_conversations] at hr
  by_cases h : s.index.length = 0
  · rw [if_pos h] at hr
    simp at hr
  · rw [if_neg h] at hr
    exact filterResults_owner s.metadata A k _ [] (by simp) r hr

/-- Witness for C1: the single result of a concrete owner-filtered search on
the one-record store of owner "a". -/
theorem search_owner_isolation_witness :
    (⟨metaA, 1⟩ : SearchResult).meta.user_email = "a" :=
  search_owner_isolation embed0 storeA "x" "a" 5 ⟨metaA, 1⟩ (by
    have hs : search_similar_conversations embed0 storeA "x" (some "a") 5 =
        [⟨metaA, 1⟩] := by
      simp [search_similar_conversations, search_candidates, indexSearch,
        storeA, add_conversation, emptyStore, embed0, combined_text, sqdist,
        filterResults, ownerMatches, metaA, similarity_score, List.enum,
        List.enumFrom]
    simp [hs])


/-- A full service state with the lockstep invariant in memory and a
consistent snapshot (or no readable snapshot) on disk. -/
def goodState (st : SysState) : Prop :=
  lockstep st.store ∧ diskOK st.disk

/-- One `add_conversation` call keeps the lockstep invariant and returns the
record count from before the append. -/
theorem add_conversation_lockstep (embed : String → Vec) (s : VectorStore)
    (u q r : String) (cid : Option Nat) (now : String) (h : lockstep s) :
    lockstep (add_conversation embed s u q r cid now).1 ∧
    (add_conversation embed s u q r cid now).2 = s.metadata.length := by
  unfold lockstep at *
  simp [add_conversation, h]

/-- `delete_user_conversations` keeps the lockstep invariant. -/
theorem delete_lockstep (s : VectorStore) (u : String) (h : lockstep s) :
    lockstep (delete_user_conversations s u).1 := by
  unfold lockstep at *
  unfold delete_user_conversations
  by_cases h0 : 0 < s.metadata.length -
      (s.metadata.enum.filter (fun p => p.2.user_email != u)).length
  · simp [h0]
  · simp [h0, h]

/-- A save attempt that does not fail between its two writes leaves the
disk pair consistent: both artifacts rewritten from a lockstep store, the
previous pair kept, or an unreadable artifact (which a later load resets). -/
theorem save_index_diskOK (w1 w2 : WriteOutcome) (d : Disk) (s : VectorStore)
    (hw : ¬(w1 = .ok ∧ w2 = .failKeep)) (hd : diskOK d) (hs : lockstep s) :
    diskOK (save_index w1 w2 d s) := by
  cases w1 with
  | ok =>
    cases w2 with
    | ok =>
      intro i m hi hm
      simp only [save_index, writeFile, Artifact.good.injEq] at hi hm
      rw [← hi, ← hm]
      exact hs
    | failKeep => exact absurd ⟨rfl, rfl⟩ hw
    | failTorn =>
      intro i m hi hm
      exact nomatch hm
  | failKeep => exact hd
  | failTorn =>
    intro i m hi hm
    exact nomatch hi

/-- Loading from a consistent disk keeps the lockstep invariant. -/
theorem load_index_lockstep (d : Disk) (s : VectorStore)
    (hd : diskOK d) (hs : lockstep s) : lockstep (load_index d s) := by
  obtain ⟨g, m⟩ := d
  cases g with
  | missing => simpa [load_index, artifactExists] using hs
  | corrupt =>
    cases m with
    | missing => simpa [load_index, artifactExists] using hs
    | corrupt => simp [load_index, artifactExists, lockstep, emptyStore]
    | good mm => simp [load_index, artifactExists, lockstep, emptyStore]
  | good i =>
    cases m with
    | missing => simpa [load_index, artifactExists] using hs
    | corrupt => simp [load_index, artifactExists, lockstep, emptyStore]
    | good mm =>
      have hlen := hd i mm rfl rfl
      simpa [load_index, artifactExists, lockstep] using hlen

/-- Every operation whose persist attempt is not torn preserves the
lockstep/consistency invariant. -/
theorem stepOp_good (embed : String → Vec) (st : SysState) (op : Op)
    (hop : saveNotTorn op) (h : goodState st) :
    goodState (stepOp embed st op) := by
  obtain ⟨hs, hd⟩ := h
  cases op with
  | add a w1 w2 =>
    have ha := add_conversation_lockstep embed st.store a.user_email
      a.question a.response a.conversation_id a.now hs
    exact ⟨ha.1, save_index_diskOK w1 w2 st.disk _ hop hd ha.1⟩
  | search q o k => exact ⟨hs, hd⟩
  | context q u m => exact ⟨hs, hd⟩
  | summary u l => exact ⟨hs, hd⟩
  | stats => exact ⟨hs, hd⟩
  | del u w1 w2 =>
    have hdel := delete_lockstep st.store u hs
    unfold stepOp delete_user_conversations_persist
    by_cases h0 : 0 < (delete_user_conversations st.store u).2
    · simp only [if_pos h0]
      exact ⟨hdel, save_index_diskOK w1 w2 st.disk _ hop hd hdel⟩
    · simp only [if_neg h0]
      exact ⟨hdel, hd⟩
  | load => exact ⟨load_index_lockstep st.disk st.store hd hs, hd⟩
  | diskCorrupts => exact ⟨hs, fun i m hi _ => nomatch hi⟩

/-- The invariant holds along every trace of non-torn persist attempts. -/
theorem runTrace_good (embed : String → Vec) (ops : List Op) :
    ∀ st : SysState, (∀ op ∈ ops, saveNotTorn op) → goodState st →
      goodState (runTrace embed ops st) := by
  induction ops with
  | nil => intro st _ h; exact h
  | cons op rest ih =>
    intro st hops h
    exact ih (stepOp embed st op)
      (fun o ho => hops o (List.mem_cons_of_mem _ ho))
      (stepOp_good embed st op (hops op (List.mem_cons_self _ _)) h)

/-- A run of adds returns the consecutive positions starting at the current
record count. -/
theorem runAdds_positions (embed : String → Vec) (argsList : List AddArgs) :
    ∀ s : VectorStore, (runAdds embed argsList s).2 =
      (List.range argsList.length).map (fun i => s.metadata.length + i) := by
  induction argsList with
  | nil => intro s; simp [runAdds]
  | cons a rest ih =>
    intro s
    simp only [runAdds]
    rw [ih]
    simp [add_conversation, List.range_succ_eq_map, List.map_map,
      Function.comp, Nat.add_comm, Nat.add_assoc, Nat.add_left_comm]

/-- C2 counterexample: a save that rewrites the index file but fails before
rewriting the metadata file (second add below) leaves a readable but
mismatched snapshot pair; the next `load_index` reads both files
successfully and installs the pair, after which the index holds 2 vectors
but the metadata list has 1 record — the claimed lockstep fails after a
load. -/
theorem torn_save_breaks_lockstep_cex :
    (runTrace embed0
        [.add ⟨"a", "q0", "r0", none, "t0"⟩ .ok .ok,
         .add ⟨"a", "q1", "r1", none, "t1"⟩ .ok .failKeep,
         .load] initSys).store.index.length = 2 ∧
    (runTrace embed0
        [.add ⟨"a", "q0", "r0", none, "t0"⟩ .ok .ok,
         .add ⟨"a", "q1", "r1", none, "t1"⟩ .ok .failKeep,
         .load] initSys).store.metadata.length = 1 ∧
    ¬ lockstep (runTrace embed0
        [.add ⟨"a", "q0", "r0", none, "t0"⟩ .ok .ok,
         .add ⟨"a", "q1", "r1", none, "t1"⟩ .ok .failKeep,
         .load] initSys).store := by
  refine ⟨by decide, by decide, ?_⟩
  unfold lockstep
  decide

/-- C2 amended: starting from the empty store, the i-th `add_conversation`
returns position i (the record count before the append) unconditionally;
and after every sequence of operations (add, search, context, summary,
stats, delete, load, disk corruption) the metadata list is exactly as long
as the index, provided no persist attempt in the trace fails between its
two file writes (every save rewrites both artifacts, keeps the previous
files, or leaves an unreadable file).  Without that proviso a torn save
followed by a load breaks the invariant. -/
theorem add_positions_and_lockstep (embed : String → Vec)
    (argsList : List AddArgs) (ops : List Op)
    (hops : ∀ op ∈ ops, saveNotTorn op) :
    (runAdds embed argsList emptyStore).2 = List.range argsList.length ∧
    lockstep (runTrace embed ops initSys).store := by
  constructor
  · rw [runAdds_positions]
    simp [emptyStore]
  · exact (runTrace_good embed ops initSys hops
      ⟨rfl, fun i m hi _ => nomatch hi⟩).1

/-- Witness for the C2 amended theorem: one add with a fully successful
persist, then a reload. -/
theorem add_positions_and_lockstep_witness :
    (runAdds embed0 [⟨"a", "q0", "r0", none, "t0"⟩] emptyStore).2 =
      List.range 1 ∧
    lockstep (runTrace embed0
      [.add ⟨"a", "q0", "r0", none, "t0"⟩ .ok .ok, .load] initSys).store :=
  add_positions_and_lockstep embed0 [⟨"a", "q0", "r0", none, "t0"⟩]
    [.add ⟨"a", "q0", "r0", none, "t0"⟩ .ok .ok, .load]
    (by intro op hop; fin_cases hop <;> simp [saveNotTorn])


/-- Projecting the payload out of a filtered enumeration gives the filtered
payload list. -/
theorem enumFrom_filter_map_snd (p : Metadata → Bool) :
    ∀ (n : Nat) (l : List Metadata),
      ((List.enumFrom n l).filter (fun q => p q.2)).map (fun q => q.2) =
        l.filter p := by
  intro n l
  induction l generalizing n with
  | nil => simp
  | cons a t ih =>
    simp only [List.enumFrom_cons, List.filter_cons]
    by_cases hp : p a
    · simp [hp, ih]
    · simp [hp, ih]

/-- After a delete, the metadata list is exactly the original list filtered
to the other owners — record contents (including `index_id`) unchanged, in
the original relative order. -/
theorem delete_metadata_eq (s : VectorStore) (A : String) :
    (delete_user_conversations s A).1.metadata =
      s.metadata.filter (fun m => m.user_email != A) := by
  unfold delete_user_conversations
  by_cases h0 : 0 < s.metadata.length -
      (s.metadata.enum.filter (fun p => p.2.user_email != A)).length
  · simp only [if_pos h0]
    rw [List.enum_eq_enumFrom]
    exact enumFrom_filter_map_snd (fun m => m.user_email != A) 0 s.metadata
  · simp only [if_neg h0]
    have hlen : ((List.enumFrom 0 s.metadata).filter
        (fun p => p.2.user_email != A)).length = s.metadata.length := by
      rw [List.enum_eq_enumFrom] at h0
      have h1 : ((List.enumFrom 0 s.metadata).filter
          (fun p => p.2.user_email != A)).length ≤ s.metadata.length := by
        calc ((List.enumFrom 0 s.metadata).filter
            (fun p => p.2.user_email != A)).length
            ≤ (List.enumFrom 0 s.metadata).length :=
              List.length_filter_le _ _
          _ = s.metadata.length := by simp
      omega
    have hfl : (s.metadata.filter (fun m => m.user_email != A)).length =
        s.metadata.length := by
      rw [← enumFrom_filter_map_snd (fun m => m.user_email != A) 0 s.metadata,
        List.length_map]
      exact hlen
    exact (List.Sublist.eq_of_length (List.filter_sublist s.metadata)
      hfl).symm

/-- Both branches of a delete return `len(metadata) - len(kept)`. -/
theorem delete_count_raw (s : VectorStore) (A : String) :
    (delete_user_conversations s A).2 = s.metadata.length -
      ((s.metadata.enum.filter (fun p => p.2.user_email != A)).length) := by
  unfold delete_user_conversations
  by_cases h0 : 0 < s.metadata.length -
      (s.metadata.enum.filter (fun p => p.2.user_email != A)).length
  · simp only [if_pos h0]
  · simp only [if_neg h0]

/-- The delete return value counts exactly the records the owner had. -/
theorem delete_count_eq (s : VectorStore) (A : String) :
    (delete_user_conversations s A).2 =
      (s.metadata.filter (fun m => m.user_email == A)).length := by
  rw [delete_count_raw]
  have hk : (s.metadata.enum.filter
      (fun p => p.2.user_email != A)).length =
      (s.metadata.filter (fun m => m.user_email != A)).length := by
    rw [List.enum_eq_enumFrom,
      ← enumFrom_filter_map_snd (fun m => m.user_email != A) 0 s.metadata,
      List.length_map]
  rw [hk]
  have hsplit := List.length_eq_length_filter_add
    (l := s.metadata) (fun m => m.user_email == A)
  have hbne : s.metadata.filter (fun m => m.user_email != A) =
      s.metadata.filter (fun x => !(x.user_email == A)) := rfl
  rw [hbne]
  omega

/-- With no owner match anywhere in the metadata, the result loop keeps an
empty accumulator empty. -/
theorem filterResults_no_owner_match (md : List Metadata) (A : String)
    (hA : ∀ m ∈ md, m.user_email ≠ A) (k : Nat) :
    ∀ cands : List (Nat × ℚ), filterResults md (some A) k cands [] = [] := by
  intro cands
  induction cands with
  | nil => rfl
  | cons c rest ih =>
    obtain ⟨idx, d⟩ := c
    simp only [filterResults]
    by_cases h1 : idx < md.length
    · rw [if_pos h1]
      have hmem : md.getD idx default ∈ md := by
        rw [List.getD_eq_getElem md default h1]
        exact List.getElem_mem h1
      have hno : ownerMatches (some A) (md.getD idx default) = false := by
        simp only [ownerMatches]
        exact beq_eq_false_iff_ne.mpr (hA _ hmem)
      rw [hno]
      simpa using ih
    · rw [if_neg h1]
      exact ih

/-- C3 part 1: searching for the deleted owner returns nothing. -/
theorem search_after_delete_empty (embed : String → Vec) (s : VectorStore)
    (A q : String) (k : Nat) :
    search_similar_conversations embed (delete_user_conversations s A).1 q
      (some A) k = [] := by
  unfold search_similar_conversations
  by_cases h : (delete_user_conversations s A).1.index.length = 0
  · rw [if_pos h]
  · rw [if_neg h]
    apply filterResults_no_owner_match
    intro m hm
    rw [delete_metadata_eq] at hm
    have hf := List.of_mem_filter hm
    exact bne_iff_ne.mp hf

/-- C3 part 2: the record total decreases by exactly the delete count. -/
theorem delete_stats_decrease (s : VectorStore) (A mn : String) (dim : Nat)
    (h : lockstep s) :
    (get_stats mn dim s).total_conversations =
      (get_stats mn dim
        (delete_user_conversations s A).1).total_conversations +
      (delete_user_conversations s A).2 := by
  have hcount := delete_count_raw s A
  have hkle : (s.metadata.enum.filter
      (fun p => p.2.user_email != A)).length ≤ s.metadata.length := by
    calc (s.metadata.enum.filter (fun p => p.2.user_email != A)).length
        ≤ s.metadata.enum.length := List.length_filter_le _ _
      _ = s.metadata.length := by simp
  unfold lockstep at h
  unfold get_stats
  unfold delete_user_conversations at hcount ⊢
  by_cases h0 : 0 < s.metadata.length -
      (s.metadata.enum.filter (fun p => p.2.user_email != A)).length
  · simp only [if_pos h0] at hcount ⊢
    simp only [List.length_map]
    omega
  · simp only [if_neg h0] at hcount ⊢
    omega

/-- C3 part 4: records of any other owner are untouched, in order. -/
theorem delete_preserves_other_owner (s : VectorStore) (A B : String)
    (hBA : B ≠ A) :
    (delete_user_conversations s A).1.metadata.filter
        (fun m => m.user_email == B) =
      s.metadata.filter (fun m => m.user_email == B) := by
  rw [delete_metadata_eq, List.filter_filter]
  apply List.filter_congr
  intro m hm
  by_cases hb : m.user_email = B
  · simp [hb, bne_iff_ne, hBA]
  · simp [hb]

/-- C3: after `delete_user_conversations(A)`, searching with owner filter A
returns the empty list for every query and k; the stats record total
decreases by exactly the delete count; the delete count is the number of
records A had before (0 when A had none); and the surviving records of any
other owner B keep their original relative order. -/
theorem delete_owner_correctness (embed : String → Vec) (s : VectorStore)
    (A q mn B : String) (dim k : Nat) (h : lockstep s) :
    search_similar_conversations embed (delete_user_conversations s A).1 q
        (some A) k = [] ∧
    (get_stats mn dim s).total_conversations =
      (get_stats mn dim
        (delete_user_conversations s A).1).total_conversations +
      (delete_user_conversations s A).2 ∧
    (delete_user_conversations s A).2 =
      (s.metadata.filter (fun m => m.user_email == A)).length ∧
    (B ≠ A → (delete_user_conversations s A).1.metadata.filter
          (fun m => m.user_email == B) =
        s.metadata.filter (fun m => m.user_email == B)) :=
  ⟨search_after_delete_empty embed s A q k,
   delete_stats_decrease s A mn dim h,
   delete_count_eq s A,
   fun hBA => delete_preserves_other_owner s A B hBA⟩

/-- Witness for C3 on the concrete two-owner store, deleting owner "a". -/
theorem delete_owner_correctness_witness :
    search_similar_conversations embed0
        (delete_user_conversations storeAB "a").1 "x" (some "a") 3 = [] ∧
    (delete_user_conversations storeAB "a").1.metadata.filter
        (fun m => m.user_email == "b") =
      storeAB.metadata.filter (fun m => m.user_email == "b") :=
  ⟨(delete_owner_correctness embed0 storeAB "a" "x" "all-MiniLM-L6-v2" "b"
      384 3 rfl).1,
   (delete_owner_correctness embed0 storeAB "a" "x" "all-MiniLM-L6-v2" "b"
      384 3 rfl).2.2.2 (by decide)⟩


/-- Rebuilding pairs each kept slot number with the vector it addressed. -/
theorem enumFrom_map_getD_zip (xs : List Vec) :
    ∀ (n : Nat) (ms : List Metadata), n + ms.length = xs.length →
      (List.enumFrom n ms).map (fun p => (xs.getD p.1 [], p.2)) =
        (xs.drop n).zip ms := by
  intro n ms
  induction ms generalizing n with
  | nil => intro h; simp
  | cons m t ih =>
    intro h
    have hn : n < xs.length := by
      simp only [List.length_cons] at h
      omega
    simp only [List.enumFrom_cons, List.map_cons]
    rw [List.drop_eq_getElem_cons hn, List.zip_cons_cons,
      List.getD_eq_getElem xs [] hn, ih (n + 1) (by simp at h ⊢; omega)]

/-- After a delete, the surviving (vector, record) pairs at slots 0..N-1 are
a subsequence of the original pairing: order and vector-record association
are preserved. -/
theorem delete_zip_sublist (s : VectorStore) (A : String) (h : lockstep s) :
    ((delete_user_conversations s A).1.index.zip
        (delete_user_conversations s A).1.metadata).Sublist
      (s.index.zip s.metadata) := by
  unfold delete_user_conversations
  by_cases h0 : 0 < s.metadata.length -
      (s.metadata.enum.filter (fun p => p.2.user_email != A)).length
  · simp only [if_pos h0]
    rw [List.zip_map']
    have hsub : (s.metadata.enum.filter
          (fun p => p.2.user_email != A)).map
          (fun p => (s.index.getD p.1 [], p.2)) |>.Sublist
        (s.metadata.enum.map (fun p => (s.index.getD p.1 [], p.2))) :=
      (List.filter_sublist _).map _
    have heq : s.metadata.enum.map (fun p => (s.index.getD p.1 [], p.2)) =
        s.index.zip s.metadata := by
      rw [List.enum_eq_enumFrom,
        enumFrom_map_getD_zip s.index 0 s.metadata (by simpa using h.symm),
        List.drop_zero]
    rw [heq] at hsub
    exact hsub
  · simp only [if_neg h0]
    exact List.Sublist.refl _

/-- C4 counterexample: deleting owner "a" from the two-record store leaves
the surviving record of "b" at slot 0 of the rebuilt index, but its stored
`index_id` is still 1 — the position identity stored with the metadata does
not equal the new slot number. -/
theorem delete_index_id_not_reassigned_cex :
    (delete_user_conversations storeAB "a").1.metadata.map Metadata.index_id
      = [1] ∧
    (delete_user_conversations storeAB "a").1.metadata.length = 1 ∧
    (delete_user_conversations storeAB "a").1.metadata.map Metadata.index_id
      ≠ List.range
        (delete_user_conversations storeAB "a").1.metadata.length := by
  refine ⟨by decide, by decide, ?_⟩
  decide

/-- C4 amended: after `delete_user_conversations(A)` the surviving records
occupy slots 0..N-1 in their original relative order — the metadata list
becomes exactly the original list filtered to other owners, the rebuilt
index stays in lockstep with it, and the surviving (vector, record) pairs
form a subsequence of the original pairing — but each survivor keeps its
pre-deletion `index_id` value (records are reused unchanged), so the stored
`index_id` need not equal the new slot number. -/
theorem delete_rebuild_order (s : VectorStore) (A : String)
    (h : lockstep s) :
    (delete_user_conversations s A).1.metadata =
      s.metadata.filter (fun m => m.user_email != A) ∧
    lockstep (delete_user_conversations s A).1 ∧
    ((delete_user_conversations s A).1.index.zip
        (delete_user_conversations s A).1.metadata).Sublist
      (s.index.zip s.metadata) :=
  ⟨delete_metadata_eq s A, delete_lockstep s A h, delete_zip_sublist s A h⟩

/-- Witness for the C4 amended theorem on the concrete two-owner store. -/
theorem delete_rebuild_order_witness :
    (delete_user_conversations storeAB "a").1.metadata =
      storeAB.metadata.filter (fun m => m.user_email != "a") :=
  (delete_rebuild_order storeAB "a" rfl).1


/-- The candidate list has exactly `min(2k, count)` entries. -/
theorem search_candidates_length (embed : String → Vec) (s : VectorStore)
    (q : String) (k : Nat) :
    (search_candidates embed s q k).length = min (2 * k) s.index.length := by
  unfold search_candidates indexSearch
  rw [List.length_take]
  have hlen : (List.insertionSort (fun p q => p.2 ≤ q.2)
      (s.index.enum.map (fun p => (p.1, sqdist (embed q) p.2)))).length =
      s.index.length := by
    rw [(List.perm_insertionSort _ _).length_eq]
    simp
  rw [hlen]
  omega

/-- The result loop grows the accumulator by at most one per candidate. -/
theorem filterResults_length_le_add (md : List Metadata)
    (owner : Option String) (k : Nat) :
    ∀ (cands : List (Nat × ℚ)) (acc : List SearchResult),
      (filterResults md owner k cands acc).length ≤
        acc.length + cands.length := by
  intro cands
  induction cands with
  | nil => intro acc; simp [filterResults]
  | cons c rest ih =>
    obtain ⟨idx, d⟩ := c
    intro acc
    simp only [filterResults, List.length_cons]
    by_cases h1 : idx < md.length
    · rw [if_pos h1]
      by_cases h2 : ownerMatches owner (md.getD idx default) = true
      · rw [if_pos h2]
        by_cases h3 : k ≤ (acc ++
            [(⟨md.getD idx default, similarity_score d⟩ : SearchResult)]).length
        · rw [if_pos h3]
          simp only [List.length_append, List.length_singleton]
          omega
        · rw [if_neg h3]
          have h4 := ih (acc ++
            [(⟨md.getD idx default, similarity_score d⟩ : SearchResult)])
          simp only [List.length_append, List.length_singleton] at h4
          omega
      · rw [if_neg h2]
        have h4 := ih acc
        omega
    · rw [if_neg h1]
      have h4 := ih acc
      omega

/-- The loop stops as soon as `k` results have been collected. -/
theorem filterResults_length_le_k (md : List Metadata)
    (owner : Option String) (k : Nat) :
    ∀ (cands : List (Nat × ℚ)) (acc : List SearchResult),
      acc.length < k → (filterResults md owner k cands acc).length ≤ k := by
  intro cands
  induction cands with
  | nil => intro acc hacc; simp only [filterResults]; omega
  | cons c rest ih =>
    obtain ⟨idx, d⟩ := c
    intro acc hacc
    simp only [filterResults]
    by_cases h1 : idx < md.length
    · rw [if_pos h1]
      by_cases h2 : ownerMatches owner (md.getD idx default) = true
      · rw [if_pos h2]
        by_cases h3 : k ≤ (acc ++
            [(⟨md.getD idx default, similarity_score d⟩ : SearchResult)]).length
        · rw [if_pos h3]
          simp only [List.length_append, List.length_singleton]
          omega
        · rw [if_neg h3]
          apply ih
          simp only [List.length_append, List.length_singleton] at h3 ⊢
          omega
      · rw [if_neg h2]
        exact ih acc hacc
    · rw [if_neg h1]
      exact ih acc hacc

/-- Squared-L2 distances are nonnegative. -/
theorem sqdist_nonneg (u : Vec) : ∀ v : Vec, 0 ≤ sqdist u v := by
  unfold sqdist
  induction u with
  | nil => intro v; simp
  | cons a t ih =>
    intro v
    cases v with
    | nil => simp
    | cons b w =>
      simp only [List.zipWith_cons_cons, List.sum_cons]
      have h1 := ih w
      have h2 : (0:ℚ) ≤ (a - b) ^ 2 := sq_nonneg _
      linarith

/-- The candidate list is sorted by ascending distance. -/
theorem indexSearch_sorted (index : List Vec) (qv : Vec) (n : Nat) :
    (indexSearch index qv n).Sorted (fun p q => p.2 ≤ q.2) := by
  unfold indexSearch
  apply List.Pairwise.sublist (List.take_sublist _ _)
  haveI ht : IsTotal (Nat × ℚ) (fun p q => p.2 ≤ q.2) :=
    ⟨fun a b => le_total a.2 b.2⟩
  haveI htr : IsTrans (Nat × ℚ) (fun p q => p.2 ≤ q.2) :=
    ⟨fun a b c h1 h2 => le_trans h1 h2⟩
  exact List.sorted_insertionSort _ _

/-- Every candidate distance is a squared-L2 distance, hence nonnegative. -/
theorem indexSearch_dist_nonneg (index : List Vec) (qv : Vec) (n : Nat) :
    ∀ p ∈ indexSearch index qv n, 0 ≤ p.2 := by
  intro p hp
  unfold indexSearch at hp
  have hp1 := List.mem_of_mem_take hp
  rw [(List.perm_insertionSort _ _).mem_iff] at hp1
  obtain ⟨c, hc, hrfl⟩ := List.mem_map.mp hp1
  rw [← hrfl]
  exact sqdist_nonneg qv c.2

/-- The scores of the returned results are, in order, a subsequence of the
scores of the accumulator followed by the candidates. -/
theorem filterResults_scores_sublist (md : List Metadata)
    (owner : Option String) (k : Nat) :
    ∀ (cands : List (Nat × ℚ)) (acc : List SearchResult),
      ((filterResults md owner k cands acc).map
          (fun r => r.similarity_score)).Sublist
        ((acc.map (fun r => r.similarity_score)) ++
          (cands.map (fun c => similarity_score c.2))) := by
  intro cands
  induction cands with
  | nil =>
    intro acc
    simp only [filterResults, List.map_nil, List.append_nil]
    exact List.Sublist.refl _
  | cons c rest ih =>
    obtain ⟨idx, d⟩ := c
    intro acc
    simp only [filterResults, List.map_cons]
    by_cases h1 : idx < md.length
    · rw [if_pos h1]
      by_cases h2 : ownerMatches owner (md.getD idx default) = true
      · rw [if_pos h2]
        by_cases h3 : k ≤ (acc ++
            [(⟨md.getD idx default, similarity_score d⟩ : SearchResult)]).length
        · rw [if_pos h3, List.map_append]
          apply List.Sublist.append_left
          simp only [List.map_cons, List.map_nil]
          rw [← List.singleton_append]
          exact ((List.nil_sublist _).cons_cons _).trans
            (List.Sublist.refl _)
        · rw [if_neg h3]
          have h4 := ih (acc ++
            [(⟨md.getD idx default, similarity_score d⟩ : SearchResult)])
          rw [List.map_append] at h4
          simpa [List.append_assoc] using h4
      · rw [if_neg h2]
        exact (ih acc).trans
          (List.Sublist.append_left (List.sublist_cons_self _ _) _)
    · rw [if_neg h1]
      exact (ih acc).trans
        (List.Sublist.append_left (List.sublist_cons_self _ _) _)

/-- Candidate scores are sorted in descending order. -/
theorem indexSearch_scores_sorted (index : List Vec) (qv : Vec) (n : Nat) :
    ((indexSearch index qv n).map (fun c => similarity_score c.2)).Sorted
      (· ≥ ·) := by
  unfold List.Sorted
  rw [List.pairwise_map]
  apply List.Pairwise.imp_of_mem ?_ (indexSearch_sorted index qv n)
  intro a b ha hb hle
  have ha2 := indexSearch_dist_nonneg index qv n a ha
  show similarity_score b.2 ≤ similarity_score a.2
  unfold similarity_score
  exact one_div_le_one_div_of_le (by linarith) (by linarith)

/-- Search results carry descending similarity scores. -/
theorem search_scores_sorted (embed : String → Vec) (s : VectorStore)
    (q : String) (owner : Option String) (k : Nat) :
    ((search_similar_conversations embed s q owner k).map
      (fun r => r.similarity_score)).Sorted (· ≥ ·) := by
  unfold search_similar_conversations
  by_cases h : s.index.length = 0
  · simp [h]
  · rw [if_neg h]
    have hsub := filterResults_scores_sublist s.metadata owner k
      (search_candidates embed s q k) []
    simp only [List.map_nil, List.nil_append] at hsub
    exact List.Pairwise.sublist hsub
      (indexSearch_scores_sorted s.index (embed q)
        (min (k * 2) s.index.length))

/-- C7: search asks the index for exactly `min(2k, count)` nearest
neighbours, filters the candidates by owner when a filter is supplied, and
returns at most `min(k, count)` results (possibly fewer than k) whose
similarity scores are in descending order. -/
theorem search_overfetch_filter_truncate (embed : String → Vec)
    (s : VectorStore) (q : String) (owner : Option String) (k : Nat) :
    (search_candidates embed s q k).length = min (2 * k) s.index.length ∧
    (search_similar_conversations embed s q owner k).length ≤
      min k s.index.length ∧
    ((search_similar_conversations embed s q owner k).map
      (fun r => r.similarity_score)).Sorted (· ≥ ·) ∧
    (∀ A r, owner = some A →
      r ∈ search_similar_conversations embed s q owner k →
      r.meta.user_email = A) := by
  refine ⟨search_candidates_length embed s q k, ?_, ?_, ?_⟩
  · unfold search_similar_conversations
    by_cases h : s.index.length = 0
    · simp [h]
    · rw [if_neg h]
      have h1 := filterResults_length_le_add s.metadata owner k
        (search_candidates embed s q k) []
      have h2 := search_candidates_length embed s q k
      rcases Nat.eq_zero_or_pos k with hk | hk
      · subst hk
        simp only [List.length_nil, Nat.zero_add] at h1
        omega
      · have h3 := filterResults_length_le_k s.metadata owner k
          (search_candidates embed s q k) [] (by simpa using hk)
        simp only [List.length_nil, Nat.zero_add] at h1
        omega
  · exact search_scores_sorted embed s q owner k
  · intro A r hA hr
    subst hA
    unfold search_similar_conversations at hr
    by_cases h : s.index.length = 0
    · rw [if_pos h] at hr
      simp at hr
    · rw [if_neg h] at hr
      exact filterResults_owner s.metadata A k _ [] (by simp) r hr

/-- Witness for C7: a concrete owner-filtered search on the two-owner store
returns only the matching owner's record. -/
theorem search_overfetch_witness :
    (⟨metaB, 1⟩ : SearchResult).meta.user_email = "b" :=
  (search_overfetch_filter_truncate embed0 storeAB "x" (some "b") 2).2.2.2
    "b" ⟨metaB, 1⟩ rfl (by
      have hs : search_similar_conversations embed0 storeAB "x" (some "b") 2 =
          [⟨metaB, 1⟩] := by
        simp [search_similar_conversations, search_candidates, indexSearch,
          storeAB, storeA, add_conversation, emptyStore, embed0,
          combined_text, sqdist, filterResults, ownerMatches, metaB,
          similarity_score, List.enum, List.enumFrom]
      simp [hs])


/-- The search loop only ever appends to the heap. -/
theorem searchHeapLoop_heap_extends (metaRefs : List Nat)
    (owner : Option String) (k : Nat) :
    ∀ (cands : List (Nat × ℚ)) (heap : List Cell) (acc : List Nat),
      ∃ t, (searchHeapLoop metaRefs owner k cands heap acc).1 = heap ++ t := by
  intro cands
  induction cands with
  | nil =>
    intro heap acc
    exact ⟨[], by simp [searchHeapLoop]⟩
  | cons c rest ih =>
    obtain ⟨idx, d⟩ := c
    intro heap acc
    simp only [searchHeapLoop]
    split
    · split
      · split
        · exact ⟨_, rfl⟩
        · obtain ⟨t, ht⟩ := ih (heap ++
            [Cell.mk (heap.getD (metaRefs.getD idx 0) default).fields
              (some (similarity_score d))]) (acc ++ [heap.length])
          exact ⟨Cell.mk (heap.getD (metaRefs.getD idx 0) default).fields
              (some (similarity_score d)) :: t,
            by rw [ht]; simp⟩
      · obtain ⟨t, ht⟩ := ih (heap ++
          [Cell.mk (heap.getD (metaRefs.getD idx 0) default).fields
            (some (similarity_score d))]) acc
        exact ⟨Cell.mk (heap.getD (metaRefs.getD idx 0) default).fields
            (some (similarity_score d)) :: t,
          by rw [ht]; simp⟩
    · exact ih heap acc

/-- Every reference the search loop returns is at least `n`, provided the
accumulator already is and the heap has grown to at least `n` cells. -/
theorem searchHeapLoop_refs_fresh (metaRefs : List Nat)
    (owner : Option String) (k : Nat) :
    ∀ (cands : List (Nat × ℚ)) (heap : List Cell) (acc : List Nat) (n : Nat),
      n ≤ heap.length → (∀ r ∈ acc, n ≤ r) →
      ∀ r ∈ (searchHeapLoop metaRefs owner k cands heap acc).2, n ≤ r := by
  intro cands
  induction cands with
  | nil =>
    intro heap acc n hn hacc r hr
    simp only [searchHeapLoop] at hr
    exact hacc r hr
  | cons c rest ih =>
    obtain ⟨idx, d⟩ := c
    intro heap acc n hn hacc r hr
    simp only [searchHeapLoop] at hr
    have hnew : ∀ x ∈ acc ++ [heap.length], n ≤ x := by
      intro x hx
      rcases List.mem_append.mp hx with hx | hx
      · exact hacc x hx
      · have hx0 : x = heap.length := by simpa using hx
        omega
    split at hr
    · split at hr
      · split at hr
        · exact hnew r hr
        · refine ih _ _ n (by simp; omega) hnew r hr
      · refine ih _ _ n (by simp; omega) hacc r hr
    · exact ih heap acc n hn hacc r hr

/-- C10: the read operations leave the store unchanged, and search returns
fresh copies of the stored records: the store's metadata references and
index are untouched, the record objects they denote are unchanged, every
returned reference denotes a newly allocated copy, and overwriting any
returned record leaves the store's observable content intact.  The
`context`, `summary` and `stats` steps carry the service state through
unchanged. -/
theorem search_results_are_copies (embed : String → Vec) (h : HeapStore)
    (q : String) (owner : Option String) (k : Nat) (hwf : wfHeap h) :
    (search_heap embed h q owner k).1.metaRefs = h.metaRefs ∧
    (search_heap embed h q owner k).1.index = h.index ∧
    heapView (search_heap embed h q owner k).1 = heapView h ∧
    (∀ r ∈ (search_heap embed h q owner k).2, h.heap.length ≤ r) ∧
    (∀ r ∈ (search_heap embed h q owner k).2, ∀ c : Cell,
      heapView (writeHeap (search_heap embed h q owner k).1 r c) =
        heapView h) ∧
    (∀ (st : SysState) (qq u : String) (mr lim : Nat),
      stepOp embed st (.search qq (some u) k) = st ∧
      stepOp embed st (.context qq u mr) = st ∧
      stepOp embed st (.summary u lim) = st ∧
      stepOp embed st .stats = st) := by
  unfold search_heap
  by_cases hidx : h.index.length = 0
  · rw [if_pos hidx]
    exact ⟨rfl, rfl, rfl, by simp, by simp,
      fun st qq u mr lim => ⟨rfl, rfl, rfl, rfl⟩⟩
  · rw [if_neg hidx]
    obtain ⟨t, ht⟩ := searchHeapLoop_heap_extends h.metaRefs owner k
      (indexSearch h.index (embed q) (min (k * 2) h.index.length)) h.heap []
    have hfresh : ∀ r ∈ (searchHeapLoop h.metaRefs owner k
        (indexSearch h.index (embed q) (min (k * 2) h.index.length))
        h.heap []).2, h.heap.length ≤ r :=
      searchHeapLoop_refs_fresh h.metaRefs owner k _ h.heap []
        h.heap.length le_rfl (by simp)
    have hview : ∀ r ∈ h.metaRefs,
        (searchHeapLoop h.metaRefs owner k
          (indexSearch h.index (embed q) (min (k * 2) h.index.length))
          h.heap []).1.get? r = h.heap.get? r := by
      intro r hr
      rw [ht]
      exact List.get?_append (hwf r hr)
    refine ⟨rfl, rfl, ?_, hfresh, ?_, fun st qq u mr lim => ⟨rfl, rfl, rfl, rfl⟩⟩
    · exact List.map_congr_left hview
    · intro r hr c
      unfold writeHeap heapView
      apply List.map_congr_left
      intro s hs
      have hne : r ≠ s := by
        have h1 := hfresh r hr
        have h2 := hwf s hs
        omega
      rw [List.get?_set_ne c _ hne]
      exact hview s hs

/-- Witness for C10: searching the concrete one-record heap store leaves the
store's observable content unchanged. -/
theorem search_results_are_copies_witness :
    heapView (search_heap embed0 heapStoreA "x" (some "a") 5).1 =
      heapView heapStoreA :=
  (search_results_are_copies embed0 heapStoreA "x" (some "a") 5
    (by simp [wfHeap, heapStoreA])).2.2.1

end Rag
